import Mathlib

/-!
Verification of the banquate seating application's core logic.

The development shallowly embeds the business logic of the repository:
numbering schemes and the display-to-data resolver (`app.py`), the table
swap operation (`app.py` / `app_nojs.py`), the layout simulator
(`simulation_utils.py`) and the table-summary aggregation (`pdf_gen.py`).
Guest rows are records, the pandas DataFrame is a list of rows, machine
integers are `Int` (table numbers can be negative: the swap sentinel is
`-999`) or `Nat` (grid coordinates), and pandas/python operations are
rendered by explicit list functions.
-/

/-- One guest-list row. `table_number` is the data table identifier (an
integer; `0` means unassigned, and the swap sentinel `-999` can appear
transiently). `gp_id` is optional because rows synthesized by the layout
simulator carry no `gp_id` value at all (the python dict has no such key,
so pandas fills NaN). -/
structure GuestRow where
  table_number : Int
  seat : Int
  name : String
  menu : String
  gp_id : Option Int := none
  gp_name : String
deriving Repr, DecidableEq

/-- Sequential numbering scheme, `app.py` lines 45-47:
`return (r * cols) + (c + 1)`. -/
def get_table_id (r c cols : Nat) : Nat :=
  r * cols + (c + 1)

/-- Odd/Even numbering scheme, `app.py` lines 49-57. The row's number range
`range(start_num, end_num + 1)` has `cols` elements `start_num + i` for
`i < cols`; odds come first, then evens, and `sorted_nums[c]` is returned
(the python indexing is always in range for `c < cols`; the Lean `getD`
default `0` is never reached on that domain). -/
def get_table_id_oddeven (r c cols : Nat) : Nat :=
  let start_num := r * cols + 1
  let row_nums := (List.range cols).map (fun i => start_num + i)
  let odds := row_nums.filter (fun n => n % 2 != 0)
  let evens := row_nums.filter (fun n => n % 2 == 0)
  let sorted_nums := odds ++ evens
  sorted_nums.getD c 0

/-- Display-to-data resolver, `app.py` lines 340-351. For any mode other
than `"Odd/Even"` it returns the display id unchanged; otherwise it
recovers `(r, c)` by inverting the sequential scheme and applies the
Odd/Even scheme. There is no range validation in the source. (The python
function also receives `rows`, unused, kept here for fidelity.) -/
def get_data_id_from_display_id (display_id rows cols : Nat) (mode : String) : Nat :=
  if mode ≠ "Odd/Even" then display_id
  else
    let idx := display_id - 1
    let r := idx / cols
    let c := idx % cols
    get_table_id_oddeven r c cols

/-- The swap sentinel, `TEMP_ID = -999` in `swap_tables`. -/
def TEMP_ID : Int := -999

/-- The new table number a row with original number `v` carries after
`swap_tables(df, t1_id, t2_id)` (`app.py` lines 59-70). The source first
records the index sets of rows tagged `t1_id` and of rows tagged `t2_id`
(both against the original table numbers), then relabels the first set to
`TEMP_ID`, the second set to `t1_id`, and finally every row whose current
number equals `TEMP_ID` to `t2_id`. Only `table_number` is written, so the
whole operation is this per-row function of the original number. -/
def swap_relabel (t1_id t2_id v : Int) : Int :=
  let v1 := if v = t1_id then TEMP_ID else v
  let v2 := if v = t2_id then t1_id else v1
  if v2 = TEMP_ID then t2_id else v2

/-- Swap the occupants of two tables, `app.py` lines 59-70 (the copy in
`app_nojs.py` lines 37-48 is identical). -/
def swap_tables (df : List GuestRow) (t1_id t2_id : Int) : List GuestRow :=
  df.map (fun g => { g with table_number := swap_relabel t1_id t2_id g.table_number })

/-- Keep-first deduplication, the order `pandas.Series.unique` returns
values in (first occurrence first). -/
def dedupKeepFirstGo (seen : List Int) : List Int → List Int
  | [] => []
  | x :: xs =>
    if x ∈ seen then dedupKeepFirstGo seen xs
    else x :: dedupKeepFirstGo (x :: seen) xs

/-- Distinct values of a list, first occurrence first. -/
def dedupKeepFirst (l : List Int) : List Int :=
  dedupKeepFirstGo [] l

/-- Maximum of the `table_number` column: `df['table_number'].max()` over a
nonempty frame, and the source's fallback `0` when the frame is empty. -/
def listMax0 : List Int → Int
  | [] => 0
  | x :: xs => xs.foldl max x

/-- The `table_number` column of the frame. -/
def table_vals (df : List GuestRow) : List Int :=
  df.map (fun g => g.table_number)

/-- `current_max` of `simulate_table_addition`, `simulation_utils.py`
lines 21-25. -/
def current_max (df : List GuestRow) : Int :=
  listMax0 (table_vals df)

/-- `new_tables_info`, `simulation_utils.py` lines 29-34: one pair
`(new_id, target)` per anchor in input order, with ids minted sequentially
from `next` (`= current_max + 1` at the call site). -/
def new_tables_info (next : Int) : List Int → List (Int × Int)
  | [] => []
  | t :: ts => (next, t) :: new_tables_info (next + 1) ts

/-- `unique_tables`, `simulation_utils.py` lines 39-43:
`sorted(df['table_number'].unique())` with the zeros dropped. -/
def unique_tables (df : List GuestRow) : List Int :=
  ((dedupKeepFirst (table_vals df)).insertionSort (· ≤ ·)).filter (fun t => t != 0)

/-- The list `insertions_map[t]` of the defaultdict built on
`simulation_utils.py` lines 51-54: the new ids whose target is `t`, in
input order. -/
def ids_for (info : List (Int × Int)) (t : Int) : List Int :=
  (info.filter (fun p => p.2 == t)).map (fun p => p.1)

/-- The defaultdict's key sequence: targets in first-occurrence order
(python dicts iterate in insertion order). -/
def insertion_keys (info : List (Int × Int)) : List Int :=
  dedupKeepFirst (info.map (fun p => p.2))

/-- `new_order` construction, `simulation_utils.py` lines 56-80. When
there is no existing nonzero table every minted id is appended in input
order; otherwise the ids anchored at `0` come first, then each existing
table followed by its insertions, and finally the entries of the
defaultdict whose target matched nothing (`target not in
processed_targets`, where `processed_targets` is the set of existing
tables plus `0` when `0` is a key), in key order. -/
def build_new_order (info : List (Int × Int)) (uniq gen : List Int) : List Int :=
  if uniq.isEmpty then gen
  else
    ids_for info 0
      ++ uniq.flatMap (fun t => t :: ids_for info t)
      ++ ((insertion_keys info).filter
            (fun k => !(uniq.contains k ||
              ((insertion_keys info).contains 0 && k == 0)))).flatMap
          (ids_for info)

/-- Result triple of `simulate_table_addition`. -/
structure SimResult where
  sim_df : List GuestRow
  new_order : List Int
  generated_new_ids : List Int
deriving Repr, DecidableEq

/-- `simulate_table_addition`, `simulation_utils.py` lines 3-100 (list
input; the python int normalization of lines 16-19 is the singleton
case). -/
def simulate_table_addition (df : List GuestRow) (target_ids : List Int) : SimResult :=
  let info := new_tables_info (current_max df + 1) target_ids
  let generated_new_ids := info.map (fun p => p.1)
  let uniq := unique_tables df
  let new_order := build_new_order info uniq generated_new_ids
  let new_rows := generated_new_ids.map (fun nid =>
    { table_number := nid, seat := 1, name := "Reserved (Simulated)",
      menu := "Reserve", gp_id := none, gp_name := "SIMULATION" : GuestRow })
  { sim_df := df ++ new_rows, new_order := new_order,
    generated_new_ids := generated_new_ids }

/-- Boolean prefix test on character lists. -/
def charsPrefixOf : List Char → List Char → Bool
  | [], _ => true
  | _ :: _, [] => false
  | a :: as, b :: bs => a == b && charsPrefixOf as bs

/-- Boolean substring test on character lists. -/
def charsInfixOf (pat : List Char) : List Char → Bool
  | [] => pat.isEmpty
  | b :: bs => charsPrefixOf pat (b :: bs) || charsInfixOf pat bs

/-- `s.lower()` contains the (already lower-case) literal `pat`: the pandas
idiom `series.astype(str).str.lower().str.contains(pat)` applied to one
value. -/
def str_contains_lower (s pat : String) : Bool :=
  charsInfixOf pat.data (s.data.map Char.toLower)

/-- Row-wise reserved test of `generate_table_summary`, `pdf_gen.py` lines
190-202: name contains `simpanan`, `reserve` or `vacant`; group name
contains `simpanan` or `reserve`; or menu contains `reserve` (all
lower-cased substring matches). -/
def is_reserved_row (g : GuestRow) : Bool :=
  str_contains_lower g.name "simpanan" ||
  str_contains_lower g.name "reserve" ||
  str_contains_lower g.name "vacant" ||
  str_contains_lower g.gp_name "simpanan" ||
  str_contains_lower g.gp_name "reserve" ||
  str_contains_lower g.menu "reserve"

/-- One aggregate row of the table summary (`pdf_gen.py` lines 173-227).
`adjusted_total` is an integer difference, as in the source. -/
structure TableSummaryRow where
  table_number : Int
  group_name : String
  total_guests : Nat
  reserved : Nat
  daging : Nat
  ayam : Nat
  ikan : Nat
  vege : Nat
  adjusted_total : Int
deriving Repr, DecidableEq

/-- Aggregation of one table by `generate_table_summary`, `pdf_gen.py`
lines 176-227. (`group_name` reads the first row when there is one; on a
table with no rows the python `iloc[0]` would raise, which only happens
under an explicit `table_order` naming an absent table — the claims below
never depend on `group_name`.) -/
def summarizeTable (df : List GuestRow) (t : Int) : TableSummaryRow :=
  let table_df := df.filter (fun g => g.table_number == t)
  let total_guests := table_df.length
  let reserved := (table_df.filter (fun g => is_reserved_row g)).length
  { table_number := t
    group_name := ((table_df.head?).map (fun g => g.gp_name)).getD ""
    total_guests := total_guests
    reserved := reserved
    daging := (table_df.filter (fun g => str_contains_lower g.menu "daging")).length
    ayam := (table_df.filter (fun g => str_contains_lower g.menu "ayam")).length
    ikan := (table_df.filter (fun g => str_contains_lower g.menu "ikan")).length
    vege := (table_df.filter (fun g => str_contains_lower g.menu "vege")).length
    adjusted_total := (total_guests : Int) - (reserved : Int) }

/-- The list of tables `generate_table_summary` iterates: a provided
`table_order` with zeros dropped, or the sorted distinct table numbers;
the loop additionally skips `0` (`pdf_gen.py` lines 158-174). -/
def summary_tables (df : List GuestRow) (table_order : Option (List Int)) : List Int :=
  let base := match table_order with
    | some order => order.filter (fun t => t != 0)
    | none => (dedupKeepFirst (table_vals df)).insertionSort (· ≤ ·)
  base.filter (fun t => t != 0)

/-- `generate_table_summary`, `pdf_gen.py` lines 143-268: the per-table
aggregate rows in iteration order, and the final totals row (each total is
the sum of the corresponding column over the per-table rows). -/
def generate_table_summary (df : List GuestRow) (table_order : Option (List Int)) :
    List TableSummaryRow × TableSummaryRow :=
  let rows := (summary_tables df table_order).map (summarizeTable df)
  let totals : TableSummaryRow :=
    { table_number := 0
      group_name := ""
      total_guests := (rows.map (fun x => x.total_guests)).sum
      reserved := (rows.map (fun x => x.reserved)).sum
      daging := (rows.map (fun x => x.daging)).sum
      ayam := (rows.map (fun x => x.ayam)).sum
      ikan := (rows.map (fun x => x.ikan)).sum
      vege := (rows.map (fun x => x.vege)).sum
      adjusted_total := (rows.map (fun x => x.adjusted_total)).sum }
  (rows, totals)

/-- Modelled from the spec: the reserved-row criterion exactly as the
specification states it (section 4.5 and claim C7) — `simpanan` or
`reserve` anywhere in name, group name or menu, and `vacant` in name or
group name. The source (`pdf_gen.py` lines 194-201) differs: it does not
test the menu for `simpanan` and does not test the group name for
`vacant`. -/
def is_reserved_row_specClaim (g : GuestRow) : Bool :=
  str_contains_lower g.name "simpanan" ||
  str_contains_lower g.name "reserve" ||
  str_contains_lower g.gp_name "simpanan" ||
  str_contains_lower g.gp_name "reserve" ||
  str_contains_lower g.menu "simpanan" ||
  str_contains_lower g.menu "reserve" ||
  str_contains_lower g.name "vacant" ||
  str_contains_lower g.gp_name "vacant"

/-- Modelled from the spec: the display-to-data resolver as the
specification demands it (sections 4.2 and 7, claim C8) — it rejects a
display id outside `[1, rows*cols]` with an OutOfRange failure (`none`)
instead of producing a data identifier. No such validation exists in
`get_data_id_from_display_id` (`app.py` lines 340-351), which is total. -/
def displayToData_specClaim (display_id rows cols : Nat) (mode : String) : Option Nat :=
  if 1 ≤ display_id ∧ display_id ≤ rows * cols then
    some (get_data_id_from_display_id display_id rows cols mode)
  else none

example : get_table_id_oddeven 0 0 4 = 1 := by decide
example : get_table_id_oddeven 0 1 4 = 3 := by decide
example : get_table_id_oddeven 0 2 4 = 2 := by decide
example : get_table_id_oddeven 0 3 4 = 4 := by decide
example : get_table_id 1 0 9 = 10 := by decide
example : str_contains_lower "Simpanan A" "simpanan" = true := by decide
example : is_reserved_row ⟨3, 1, "Simpanan A", "", none, ""⟩ = true := by decide

/-! ### Properties of the numbering schemes -/

/-- The number range of row `r`, as a list. -/
def oe_row_nums (r cols : Nat) : List Nat :=
  (List.range cols).map (fun i => r * cols + 1 + i)

/-- The odds-then-evens reordering of the row range. -/
def oe_sorted (r cols : Nat) : List Nat :=
  (oe_row_nums r cols).filter (fun n => n % 2 != 0) ++
    (oe_row_nums r cols).filter (fun n => n % 2 == 0)

theorem get_table_id_oddeven_eq (r c cols : Nat) :
    get_table_id_oddeven r c cols = (oe_sorted r cols).getD c 0 := by
  simp only [get_table_id_oddeven, oe_sorted, oe_row_nums]

theorem oe_sorted_perm (r cols : Nat) : List.Perm (oe_sorted r cols) (oe_row_nums r cols) := by
  have he : (oe_row_nums r cols).filter (fun n => n % 2 == 0) =
      (oe_row_nums r cols).filter (fun n => !(n % 2 != 0)) := by
    apply List.filter_congr'
    intro x _
    simp [bne]
  rw [oe_sorted, he]
  exact List.filter_append_perm _ _

theorem oe_row_nums_length (r cols : Nat) : (oe_row_nums r cols).length = cols := by
  simp [oe_row_nums]

theorem oe_sorted_length (r cols : Nat) : (oe_sorted r cols).length = cols := by
  rw [(oe_sorted_perm r cols).length_eq, oe_row_nums_length]

theorem oe_row_nums_nodup (r cols : Nat) : (oe_row_nums r cols).Nodup :=
  List.Nodup.map (fun a b hab => by omega) (List.nodup_range cols)

theorem oe_sorted_nodup (r cols : Nat) : (oe_sorted r cols).Nodup :=
  ((oe_sorted_perm r cols).symm).nodup (oe_row_nums_nodup r cols)

theorem mem_oe_row_nums (r cols v : Nat) :
    v ∈ oe_row_nums r cols ↔ r * cols + 1 ≤ v ∧ v ≤ r * cols + cols := by
  simp only [oe_row_nums, List.mem_map, List.mem_range]
  constructor
  · rintro ⟨i, hi, rfl⟩
    omega
  · intro h
    exact ⟨v - (r * cols + 1), by omega, by omega⟩

theorem oe_val_get (r c cols : Nat) (hc : c < cols) :
    get_table_id_oddeven r c cols =
      (oe_sorted r cols).get ⟨c, by rw [oe_sorted_length]; exact hc⟩ := by
  rw [get_table_id_oddeven_eq]
  exact List.getD_eq_get _ _ _

theorem oe_val_mem (r c cols : Nat) (hc : c < cols) :
    get_table_id_oddeven r c cols ∈ oe_row_nums r cols := by
  rw [oe_val_get r c cols hc]
  exact (oe_sorted_perm r cols).mem_iff.mp (List.get_mem _ _ _)

theorem oe_val_bounds (r c cols : Nat) (hc : c < cols) :
    r * cols + 1 ≤ get_table_id_oddeven r c cols ∧
      get_table_id_oddeven r c cols ≤ r * cols + cols :=
  (mem_oe_row_nums r cols _).mp (oe_val_mem r c cols hc)

theorem oe_row_recover (r c cols : Nat) (hc : c < cols) :
    (get_table_id_oddeven r c cols - 1) / cols = r := by
  have hb := oe_val_bounds r c cols hc
  apply Nat.div_eq_of_lt_le
  · omega
  · have : (r + 1) * cols = r * cols + cols := by ring
    omega

theorem oe_inj_in_row (r c c' cols : Nat) (hc : c < cols) (hc' : c' < cols)
    (h : get_table_id_oddeven r c cols = get_table_id_oddeven r c' cols) : c = c' := by
  rw [oe_val_get r c cols hc, oe_val_get r c' cols hc'] at h
  have := (List.Nodup.get_inj_iff (oe_sorted_nodup r cols)).mp h
  exact congrArg Fin.val this

theorem oe_inj (r c r' c' cols : Nat) (hc : c < cols) (hc' : c' < cols)
    (h : get_table_id_oddeven r c cols = get_table_id_oddeven r' c' cols) :
    r = r' ∧ c = c' := by
  have hr : r = r' := by
    have h1 := oe_row_recover r c cols hc
    have h2 := oe_row_recover r' c' cols hc'
    rw [h] at h1
    omega
  subst hr
  exact ⟨rfl, oe_inj_in_row r c c' cols hc hc' h⟩

theorem oe_surj_row (r v cols : Nat) (hv1 : r * cols + 1 ≤ v) (hv2 : v ≤ r * cols + cols) :
    ∃ c, c < cols ∧ get_table_id_oddeven r c cols = v := by
  have hmem : v ∈ oe_sorted r cols :=
    (oe_sorted_perm r cols).mem_iff.mpr ((mem_oe_row_nums r cols v).mpr ⟨hv1, hv2⟩)
  obtain ⟨⟨c, hclen⟩, hn⟩ := List.mem_iff_get.mp hmem
  have hc : c < cols := oe_sorted_length r cols ▸ hclen
  refine ⟨c, hc, ?_⟩
  rw [oe_val_get r c cols hc]
  exact hn

theorem seq_row_recover (r c cols : Nat) (hc : c < cols) :
    (get_table_id r c cols - 1) / cols = r ∧ (get_table_id r c cols - 1) % cols = c := by
  have h1 : get_table_id r c cols - 1 = c + cols * r := by
    simp only [get_table_id]
    have : r * cols = cols * r := by ring
    omega
  constructor
  · rw [h1, Nat.add_mul_div_left _ _ (by omega : 0 < cols), Nat.div_eq_of_lt hc]
    omega
  · rw [h1, Nat.add_mul_mod_self_left, Nat.mod_eq_of_lt hc]

theorem seq_inj (r c r' c' cols : Nat) (hc : c < cols) (hc' : c' < cols)
    (h : get_table_id r c cols = get_table_id r' c' cols) : r = r' ∧ c = c' := by
  have h1 := seq_row_recover r c cols hc
  have h2 := seq_row_recover r' c' cols hc'
  rw [h] at h1
  exact ⟨by omega, by omega⟩

theorem seq_bounds (r c rows cols : Nat) (hr : r < rows) (hc : c < cols) :
    1 ≤ get_table_id r c cols ∧ get_table_id r c cols ≤ rows * cols := by
  refine ⟨by simp only [get_table_id]; omega, ?_⟩
  have h1 : get_table_id r c cols ≤ (r + 1) * cols := by
    simp only [get_table_id]
    have : (r + 1) * cols = r * cols + cols := by ring
    omega
  have h2 : (r + 1) * cols ≤ rows * cols := Nat.mul_le_mul_right cols hr
  omega

theorem seq_surj (rows cols v : Nat) (hcols : 1 ≤ cols) (hv1 : 1 ≤ v)
    (hv2 : v ≤ rows * cols) :
    (v - 1) / cols < rows ∧ (v - 1) % cols < cols ∧
      get_table_id ((v - 1) / cols) ((v - 1) % cols) cols = v := by
  have hr : (v - 1) / cols < rows := by
    apply Nat.div_lt_of_lt_mul
    have : cols * rows = rows * cols := by ring
    omega
  have hc : (v - 1) % cols < cols := Nat.mod_lt _ (by omega)
  refine ⟨hr, hc, ?_⟩
  have hdm := Nat.div_add_mod (v - 1) cols
  simp only [get_table_id]
  have hmc : (v - 1) / cols * cols = cols * ((v - 1) / cols) := by ring
  rw [hmc]
  omega

theorem oe_bounds (r c rows cols : Nat) (hr : r < rows) (hc : c < cols) :
    1 ≤ get_table_id_oddeven r c cols ∧ get_table_id_oddeven r c cols ≤ rows * cols := by
  have hb := oe_val_bounds r c cols hc
  have h2 : r * cols + cols ≤ rows * cols := by
    have : r * cols + cols = (r + 1) * cols := by ring
    rw [this]
    exact Nat.mul_le_mul_right cols hr
  omega

theorem oe_surj (rows cols v : Nat) (hcols : 1 ≤ cols) (hv1 : 1 ≤ v)
    (hv2 : v ≤ rows * cols) :
    ∃ r c, r < rows ∧ c < cols ∧ get_table_id_oddeven r c cols = v := by
  obtain ⟨hr, hc, hval⟩ := seq_surj rows cols v hcols hv1 hv2
  have hb := seq_row_recover ((v - 1) / cols) ((v - 1) % cols) cols hc
  have hdm := Nat.div_add_mod (v - 1) cols
  have hv1' : (v - 1) / cols * cols + 1 ≤ v := by
    have hmc : (v - 1) / cols * cols = cols * ((v - 1) / cols) := by ring
    omega
  have hv2' : v ≤ (v - 1) / cols * cols + cols := by
    have hmc : (v - 1) / cols * cols = cols * ((v - 1) / cols) := by ring
    omega
  obtain ⟨c, hclt, hcv⟩ := oe_surj_row ((v - 1) / cols) v cols hv1' hv2'
  exact ⟨(v - 1) / cols, c, hr, hclt, hcv⟩

/-- C1: for every `rows, cols` in `[1,20]`, both `get_table_id` (sequential)
and `get_table_id_oddeven` are bijections from the grid domain
`{0..rows-1}x{0..cols-1}` onto `{1..rows*cols}`: each lands in the range,
distinct cells get distinct identifiers, and every value in the range is
hit. -/
theorem numbering_schemes_bijective (rows cols : Nat)
    (hr1 : 1 ≤ rows) (hr2 : rows ≤ 20) (hc1 : 1 ≤ cols) (hc2 : cols ≤ 20) :
    (∀ r c, r < rows → c < cols →
      1 ≤ get_table_id r c cols ∧ get_table_id r c cols ≤ rows * cols) ∧
    (∀ r c r' c', r < rows → c < cols → r' < rows → c' < cols →
      get_table_id r c cols = get_table_id r' c' cols → r = r' ∧ c = c') ∧
    (∀ v, 1 ≤ v → v ≤ rows * cols →
      ∃ r c, r < rows ∧ c < cols ∧ get_table_id r c cols = v) ∧
    (∀ r c, r < rows → c < cols →
      1 ≤ get_table_id_oddeven r c cols ∧
        get_table_id_oddeven r c cols ≤ rows * cols) ∧
    (∀ r c r' c', r < rows → c < cols → r' < rows → c' < cols →
      get_table_id_oddeven r c cols = get_table_id_oddeven r' c' cols →
        r = r' ∧ c = c') ∧
    (∀ v, 1 ≤ v → v ≤ rows * cols →
      ∃ r c, r < rows ∧ c < cols ∧ get_table_id_oddeven r c cols = v) := by
  refine ⟨?_, ?_, ?_, ?_, ?_, ?_⟩
  · intro r c hr hc
    exact seq_bounds r c rows cols hr hc
  · intro r c r' c' _ hc _ hc' h
    exact seq_inj r c r' c' cols hc hc' h
  · intro v hv1 hv2
    obtain ⟨h1, h2, h3⟩ := seq_surj rows cols v hc1 hv1 hv2
    exact ⟨(v - 1) / cols, (v - 1) % cols, h1, h2, h3⟩
  · intro r c hr hc
    exact oe_bounds r c rows cols hr hc
  · intro r c r' c' _ hc _ hc' h
    exact oe_inj r c r' c' cols hc hc' h
  · intro v hv1 hv2
    exact oe_surj rows cols v hc1 hv1 hv2

theorem numbering_schemes_bijective_witness :
    ((1:Nat) ≤ 7 ∧ (7:Nat) ≤ 20 ∧ (1:Nat) ≤ 9 ∧ (9:Nat) ≤ 20) ∧
    ((∀ r c, r < 7 → c < 9 →
      1 ≤ get_table_id r c 9 ∧ get_table_id r c 9 ≤ 7 * 9) ∧
    (∀ r c r' c', r < 7 → c < 9 → r' < 7 → c' < 9 →
      get_table_id r c 9 = get_table_id r' c' 9 → r = r' ∧ c = c') ∧
    (∀ v, 1 ≤ v → v ≤ 7 * 9 →
      ∃ r c, r < 7 ∧ c < 9 ∧ get_table_id r c 9 = v) ∧
    (∀ r c, r < 7 → c < 9 →
      1 ≤ get_table_id_oddeven r c 9 ∧ get_table_id_oddeven r c 9 ≤ 7 * 9) ∧
    (∀ r c r' c', r < 7 → c < 9 → r' < 7 → c' < 9 →
      get_table_id_oddeven r c 9 = get_table_id_oddeven r' c' 9 → r = r' ∧ c = c') ∧
    (∀ v, 1 ≤ v → v ≤ 7 * 9 →
      ∃ r c, r < 7 ∧ c < 9 ∧ get_table_id_oddeven r c 9 = v)) :=
  ⟨by decide, numbering_schemes_bijective 7 9 (by decide) (by decide) (by decide) (by decide)⟩

/-- C2: for display ids in `[1, rows*cols]` the resolver is the identity in
Sequential mode, recovers the grid position `r = (d-1)/cols`,
`c = (d-1)%cols` and applies the scheme in Odd/Even mode, and composing
with the inverse (recover the position producing the data id under the
scheme, then apply Sequential) returns the original display id. -/
theorem display_to_data_roundtrip (rows cols d : Nat)
    (hr1 : 1 ≤ rows) (hr2 : rows ≤ 20) (hc1 : 1 ≤ cols) (hc2 : cols ≤ 20)
    (hd1 : 1 ≤ d) (hd2 : d ≤ rows * cols) :
    get_data_id_from_display_id d rows cols "Sequential" = d ∧
    get_data_id_from_display_id d rows cols "Odd/Even" =
      get_table_id_oddeven ((d - 1) / cols) ((d - 1) % cols) cols ∧
    (∀ r c, r < rows → c < cols →
      get_table_id_oddeven r c cols = get_data_id_from_display_id d rows cols "Odd/Even" →
      get_table_id r c cols = d) := by
  have hseq : get_data_id_from_display_id d rows cols "Sequential" = d := by
    simp only [get_data_id_from_display_id]
    rw [if_pos (by decide)]
  have hoe : get_data_id_from_display_id d rows cols "Odd/Even" =
      get_table_id_oddeven ((d - 1) / cols) ((d - 1) % cols) cols := by
    simp only [get_data_id_from_display_id]
    rw [if_neg (by decide)]
  refine ⟨hseq, hoe, ?_⟩
  intro r c hr hc heq
  rw [hoe] at heq
  obtain ⟨hrd, hcd, hval⟩ := seq_surj rows cols d hc1 hd1 hd2
  obtain ⟨h1, h2⟩ := oe_inj r c ((d - 1) / cols) ((d - 1) % cols) cols hc hcd heq
  rw [h1, h2]
  exact hval

theorem display_to_data_roundtrip_witness :
    ((1:Nat) ≤ 7 ∧ (7:Nat) ≤ 20 ∧ (1:Nat) ≤ 9 ∧ (9:Nat) ≤ 20 ∧
      (1:Nat) ≤ 10 ∧ (10:Nat) ≤ 7 * 9) ∧
    (get_data_id_from_display_id 10 7 9 "Sequential" = 10 ∧
    get_data_id_from_display_id 10 7 9 "Odd/Even" =
      get_table_id_oddeven ((10 - 1) / 9) ((10 - 1) % 9) 9 ∧
    (∀ r c, r < 7 → c < 9 →
      get_table_id_oddeven r c 9 = get_data_id_from_display_id 10 7 9 "Odd/Even" →
      get_table_id r c 9 = 10)) :=
  ⟨by decide, display_to_data_roundtrip 7 9 10 (by decide) (by decide) (by decide)
    (by decide) (by decide) (by decide)⟩

/-- C8 counterexample: display id `5` lies outside `[1, 2*2]`, yet the
resolver does not fail: it returns the data identifier `5` (the spec's
validating resolver would reject it as OutOfRange). -/
theorem resolver_out_of_range_counterexample :
    get_data_id_from_display_id 5 2 2 "Sequential" = 5 ∧
    displayToData_specClaim 5 2 2 "Sequential" = none ∧ ¬ (5 ≤ 2 * 2) := by
  refine ⟨?_, ?_, by decide⟩
  · simp only [get_data_id_from_display_id]
    rw [if_pos (by decide)]
  · simp only [displayToData_specClaim]
    rw [if_neg (by decide)]

/-- C8 amended: the resolver performs no range validation. For any display
id above `rows*cols` it still returns a data identifier — the display id
itself in Sequential mode, the Odd/Even scheme applied to the recovered
position otherwise — while the spec's validating resolver returns the
OutOfRange failure `none`. No rejection happens in the source resolver. -/
theorem resolver_total_out_of_range (rows cols d : Nat) (h : rows * cols < d) :
    get_data_id_from_display_id d rows cols "Sequential" = d ∧
    get_data_id_from_display_id d rows cols "Odd/Even" =
      get_table_id_oddeven ((d - 1) / cols) ((d - 1) % cols) cols ∧
    displayToData_specClaim d rows cols "Sequential" = none ∧
    displayToData_specClaim d rows cols "Odd/Even" = none := by
  refine ⟨?_, ?_, ?_, ?_⟩
  · simp only [get_data_id_from_display_id]
    rw [if_pos (by decide)]
  · simp only [get_data_id_from_display_id]
    rw [if_neg (by decide)]
  · simp only [displayToData_specClaim]
    rw [if_neg (by omega)]
  · simp only [displayToData_specClaim]
    rw [if_neg (by omega)]

theorem resolver_total_out_of_range_witness :
    ((2:Nat) * 2 < 5) ∧
    (get_data_id_from_display_id 5 2 2 "Sequential" = 5 ∧
    get_data_id_from_display_id 5 2 2 "Odd/Even" =
      get_table_id_oddeven ((5 - 1) / 2) ((5 - 1) % 2) 2 ∧
    displayToData_specClaim 5 2 2 "Sequential" = none ∧
    displayToData_specClaim 5 2 2 "Odd/Even" = none) :=
  ⟨by decide, resolver_total_out_of_range 2 2 5 (by decide)⟩

/-! ### Properties of the swap operation -/

theorem swap_relabel_involutive (a b v : Int) (hv : v ≠ TEMP_ID) :
    swap_relabel a b (swap_relabel a b v) = v := by
  simp only [swap_relabel, TEMP_ID] at *
  split_ifs <;> omega

theorem swap_relabel_frame (a b v : Int) (hv : v ≠ TEMP_ID)
    (hne : swap_relabel a b v ≠ v) : v = a ∨ v = b := by
  simp only [swap_relabel, TEMP_ID] at *
  split_ifs at hne <;> omega

theorem swap_relabel_sentinel (a b : Int) (ha : a ≠ TEMP_ID) (hb : b ≠ TEMP_ID) :
    swap_relabel a b TEMP_ID = b := by
  simp only [swap_relabel, TEMP_ID] at *
  split_ifs <;> omega

theorem swap_relabel_changes (a b v : Int) (hab : a ≠ b) (ha : a ≠ TEMP_ID)
    (hv : v = a ∨ v = b) : swap_relabel a b v ≠ v := by
  simp only [swap_relabel, TEMP_ID] at *
  split_ifs <;> omega

theorem swap_tables_cons (g : GuestRow) (gs : List GuestRow) (a b : Int) :
    swap_tables (g :: gs) a b =
      { g with table_number := swap_relabel a b g.table_number } :: swap_tables gs a b :=
  rfl

/-- C4 counterexample: on a collection that already carries the sentinel
table number `-999`, swapping tables `1` and `2` twice does not restore
the collection (the sentinel row ends up tagged `1`). -/
theorem swap_involution_counterexample :
    swap_tables (swap_tables [⟨-999, 1, "g", "m", none, "gp"⟩] 1 2) 1 2 ≠
      [⟨-999, 1, "g", "m", none, "gp"⟩] := by
  decide

/-- C4 amended: on any collection in which no row carries the sentinel
table number `-999`, swapping the same two tables twice restores the
collection exactly, for any `a` and `b`, including when one or both
tables have no rows. -/
theorem swap_tables_involution (df : List GuestRow) (a b : Int)
    (h : ∀ g ∈ df, g.table_number ≠ TEMP_ID) :
    swap_tables (swap_tables df a b) a b = df := by
  induction df with
  | nil => rfl
  | cons g gs ih =>
    rw [swap_tables_cons, swap_tables_cons]
    have hg := h g (List.mem_cons_self g gs)
    rw [swap_relabel_involutive a b g.table_number hg]
    have htl := ih (fun x hx => h x (List.mem_cons_of_mem g hx))
    rw [htl]

theorem swap_tables_involution_witness :
    (∀ g ∈ ([⟨3, 1, "x", "m", none, "gp"⟩, ⟨7, 2, "y", "m", none, "gp"⟩] :
        List GuestRow), g.table_number ≠ TEMP_ID) ∧
    swap_tables (swap_tables [⟨3, 1, "x", "m", none, "gp"⟩,
        ⟨7, 2, "y", "m", none, "gp"⟩] 3 7) 3 7 =
      [⟨3, 1, "x", "m", none, "gp"⟩, ⟨7, 2, "y", "m", none, "gp"⟩] :=
  ⟨by decide, swap_tables_involution _ 3 7 (by decide)⟩

/-- C3 counterexample: on a collection holding a row tagged with the
sentinel `-999`, swapping tables `1` and `2` changes that row's
`table_number` (to `2`) although the row was tagged neither `1` nor `2`,
so the frame guarantee fails as universally stated. -/
theorem swap_frame_counterexample :
    swap_tables [⟨-999, 4, "x", "m", none, "gp"⟩] 1 2 =
      [⟨2, 4, "x", "m", none, "gp"⟩] ∧
    ¬ ((-999 : Int) = 1 ∨ (-999 : Int) = 2) := by
  decide

/-- C3 amended: on any collection in which no row carries the sentinel
`-999`, `swap_tables` preserves the row count, preserves every row's
`(seat, name, menu)` payload (and group fields) positionally, and changes
a row's `table_number` only when the row was originally tagged `a` or
`b`; conversely, when `a ≠ b` and `a ≠ -999`, every row originally tagged
`a` or `b` does change. In particular swapping an empty table `7` with a
table `3` holding five rows leaves table `3` with no rows, table `7` with
the five rows, and every other row untouched. -/
theorem swap_tables_frame (df : List GuestRow) (a b : Int)
    (h : ∀ g ∈ df, g.table_number ≠ TEMP_ID) :
    (swap_tables df a b).length = df.length ∧
    (∀ i (hi : i < df.length) (hi2 : i < (swap_tables df a b).length),
      ((swap_tables df a b).get ⟨i, hi2⟩).seat = (df.get ⟨i, hi⟩).seat ∧
      ((swap_tables df a b).get ⟨i, hi2⟩).name = (df.get ⟨i, hi⟩).name ∧
      ((swap_tables df a b).get ⟨i, hi2⟩).menu = (df.get ⟨i, hi⟩).menu ∧
      ((swap_tables df a b).get ⟨i, hi2⟩).gp_id = (df.get ⟨i, hi⟩).gp_id ∧
      ((swap_tables df a b).get ⟨i, hi2⟩).gp_name = (df.get ⟨i, hi⟩).gp_name ∧
      (((swap_tables df a b).get ⟨i, hi2⟩).table_number ≠ (df.get ⟨i, hi⟩).table_number →
        (df.get ⟨i, hi⟩).table_number = a ∨ (df.get ⟨i, hi⟩).table_number = b) ∧
      (a ≠ b → a ≠ TEMP_ID →
        ((df.get ⟨i, hi⟩).table_number = a ∨ (df.get ⟨i, hi⟩).table_number = b) →
        ((swap_tables df a b).get ⟨i, hi2⟩).table_number ≠
          (df.get ⟨i, hi⟩).table_number)) ∧
    (swap_tables [⟨3, 1, "g1", "m1", none, "A"⟩, ⟨3, 2, "g2", "m2", none, "A"⟩,
        ⟨3, 3, "g3", "m3", none, "A"⟩, ⟨3, 4, "g4", "m4", none, "A"⟩,
        ⟨3, 5, "g5", "m5", none, "A"⟩, ⟨1, 1, "other", "m", none, "B"⟩] 7 3 =
      [⟨7, 1, "g1", "m1", none, "A"⟩, ⟨7, 2, "g2", "m2", none, "A"⟩,
        ⟨7, 3, "g3", "m3", none, "A"⟩, ⟨7, 4, "g4", "m4", none, "A"⟩,
        ⟨7, 5, "g5", "m5", none, "A"⟩, ⟨1, 1, "other", "m", none, "B"⟩]) := by
  refine ⟨by simp [swap_tables], ?_, by decide⟩
  intro i hi hi2
  have hget : (swap_tables df a b).get ⟨i, hi2⟩ =
      { df.get ⟨i, hi⟩ with
          table_number := swap_relabel a b (df.get ⟨i, hi⟩).table_number } := by
    simp only [swap_tables]
    rw [List.get_map]
  rw [hget]
  refine ⟨rfl, rfl, rfl, rfl, rfl, ?_, ?_⟩
  · intro hne
    exact swap_relabel_frame a b _ (h _ (List.get_mem df i hi)) hne
  · intro hab ha hv
    exact swap_relabel_changes a b _ hab ha hv

theorem swap_tables_frame_witness :
    (∀ g ∈ ([⟨5, 1, "x", "m", none, "gp"⟩] : List GuestRow),
      g.table_number ≠ TEMP_ID) ∧
    ((swap_tables [⟨5, 1, "x", "m", none, "gp"⟩] 5 6).length =
      ([⟨5, 1, "x", "m", none, "gp"⟩] : List GuestRow).length ∧
    (∀ i (hi : i < ([⟨5, 1, "x", "m", none, "gp"⟩] : List GuestRow).length)
        (hi2 : i < (swap_tables [⟨5, 1, "x", "m", none, "gp"⟩] 5 6).length),
      ((swap_tables [⟨5, 1, "x", "m", none, "gp"⟩] 5 6).get ⟨i, hi2⟩).seat =
        (([⟨5, 1, "x", "m", none, "gp"⟩] : List GuestRow).get ⟨i, hi⟩).seat ∧
      ((swap_tables [⟨5, 1, "x", "m", none, "gp"⟩] 5 6).get ⟨i, hi2⟩).name =
        (([⟨5, 1, "x", "m", none, "gp"⟩] : List GuestRow).get ⟨i, hi⟩).name ∧
      ((swap_tables [⟨5, 1, "x", "m", none, "gp"⟩] 5 6).get ⟨i, hi2⟩).menu =
        (([⟨5, 1, "x", "m", none, "gp"⟩] : List GuestRow).get ⟨i, hi⟩).menu ∧
      ((swap_tables [⟨5, 1, "x", "m", none, "gp"⟩] 5 6).get ⟨i, hi2⟩).gp_id =
        (([⟨5, 1, "x", "m", none, "gp"⟩] : List GuestRow).get ⟨i, hi⟩).gp_id ∧
      ((swap_tables [⟨5, 1, "x", "m", none, "gp"⟩] 5 6).get ⟨i, hi2⟩).gp_name =
        (([⟨5, 1, "x", "m", none, "gp"⟩] : List GuestRow).get ⟨i, hi⟩).gp_name ∧
      (((swap_tables [⟨5, 1, "x", "m", none, "gp"⟩] 5 6).get ⟨i, hi2⟩).table_number ≠
          (([⟨5, 1, "x", "m", none, "gp"⟩] : List GuestRow).get ⟨i, hi⟩).table_number →
        (([⟨5, 1, "x", "m", none, "gp"⟩] : List GuestRow).get ⟨i, hi⟩).table_number = 5 ∨
        (([⟨5, 1, "x", "m", none, "gp"⟩] : List GuestRow).get ⟨i, hi⟩).table_number = 6) ∧
      ((5 : Int) ≠ 6 → (5 : Int) ≠ TEMP_ID →
        ((([⟨5, 1, "x", "m", none, "gp"⟩] : List GuestRow).get ⟨i, hi⟩).table_number = 5 ∨
          (([⟨5, 1, "x", "m", none, "gp"⟩] : List GuestRow).get ⟨i, hi⟩).table_number = 6) →
        ((swap_tables [⟨5, 1, "x", "m", none, "gp"⟩] 5 6).get ⟨i, hi2⟩).table_number ≠
          (([⟨5, 1, "x", "m", none, "gp"⟩] : List GuestRow).get ⟨i, hi⟩).table_number)) ∧
    (swap_tables [⟨3, 1, "g1", "m1", none, "A"⟩, ⟨3, 2, "g2", "m2", none, "A"⟩,
        ⟨3, 3, "g3", "m3", none, "A"⟩, ⟨3, 4, "g4", "m4", none, "A"⟩,
        ⟨3, 5, "g5", "m5", none, "A"⟩, ⟨1, 1, "other", "m", none, "B"⟩] 7 3 =
      [⟨7, 1, "g1", "m1", none, "A"⟩, ⟨7, 2, "g2", "m2", none, "A"⟩,
        ⟨7, 3, "g3", "m3", none, "A"⟩, ⟨7, 4, "g4", "m4", none, "A"⟩,
        ⟨7, 5, "g5", "m5", none, "A"⟩, ⟨1, 1, "other", "m", none, "B"⟩])) :=
  ⟨by decide, swap_tables_frame [⟨5, 1, "x", "m", none, "gp"⟩] 5 6 (by decide)⟩

/-- C9 counterexample: with `a = 1` distinct from `-999` but `b = -999`,
the pre-existing sentinel row is treated as an occupant of table `b` and
relabeled to `a = 1`, not to `b` as the claim states. -/
theorem swap_sentinel_counterexample :
    swap_tables [⟨-999, 1, "n", "m", none, "g"⟩] 1 (-999) =
      [⟨1, 1, "n", "m", none, "g"⟩] ∧ (1 : Int) ≠ -999 := by
  decide

/-- C9 amended: when both `a` and `b` are distinct from `-999`, a
pre-existing row tagged with the sentinel `-999` is relabeled to `b` by
`swap_tables` (it is caught by the final sentinel-clearing phase), so the
frame guarantee of swap holds only on collections with no `-999` row —
concretely, swapping `1` and `2` over a collection whose only row is
tagged `-999` retags that row to `2` although it was tagged neither `1`
nor `2`. -/
theorem swap_sentinel_captured (df : List GuestRow) (a b : Int)
    (ha : a ≠ TEMP_ID) (hb : b ≠ TEMP_ID) :
    (∀ i (hi : i < df.length) (hi2 : i < (swap_tables df a b).length),
      (df.get ⟨i, hi⟩).table_number = TEMP_ID →
      ((swap_tables df a b).get ⟨i, hi2⟩).table_number = b) ∧
    (swap_tables [⟨-999, 4, "x", "m", none, "gp"⟩] 1 2 =
        [⟨2, 4, "x", "m", none, "gp"⟩] ∧
      ¬ ((-999 : Int) = 1 ∨ (-999 : Int) = 2)) := by
  refine ⟨?_, by decide⟩
  intro i hi hi2 hsent
  have hget : (swap_tables df a b).get ⟨i, hi2⟩ =
      { df.get ⟨i, hi⟩ with
          table_number := swap_relabel a b (df.get ⟨i, hi⟩).table_number } := by
    simp only [swap_tables]
    rw [List.get_map]
  rw [hget]
  show swap_relabel a b (df.get ⟨i, hi⟩).table_number = b
  rw [hsent]
  exact swap_relabel_sentinel a b ha hb

theorem swap_sentinel_captured_witness :
    ((3 : Int) ≠ TEMP_ID ∧ (8 : Int) ≠ TEMP_ID) ∧
    ((∀ i (hi : i < ([⟨-999, 1, "s", "m", none, "g"⟩] : List GuestRow).length)
        (hi2 : i < (swap_tables [⟨-999, 1, "s", "m", none, "g"⟩] 3 8).length),
      (([⟨-999, 1, "s", "m", none, "g"⟩] : List GuestRow).get ⟨i, hi⟩).table_number =
          TEMP_ID →
      ((swap_tables [⟨-999, 1, "s", "m", none, "g"⟩] 3 8).get ⟨i, hi2⟩).table_number = 8) ∧
    (swap_tables [⟨-999, 4, "x", "m", none, "gp"⟩] 1 2 =
        [⟨2, 4, "x", "m", none, "gp"⟩] ∧
      ¬ ((-999 : Int) = 1 ∨ (-999 : Int) = 2))) :=
  ⟨by decide, swap_sentinel_captured [⟨-999, 1, "s", "m", none, "g"⟩] 3 8
    (by decide) (by decide)⟩

/-! ### Properties of the layout simulator -/

theorem mem_dedupKeepFirstGo (seen l : List Int) (x : Int) :
    x ∈ dedupKeepFirstGo seen l ↔ x ∈ l ∧ x ∉ seen := by
  induction l generalizing seen with
  | nil => simp [dedupKeepFirstGo]
  | cons y ys ih =>
    by_cases hy : y ∈ seen
    · rw [dedupKeepFirstGo, if_pos hy, ih]
      constructor
      · rintro ⟨h1, h2⟩
        exact ⟨List.mem_cons_of_mem y h1, h2⟩
      · rintro ⟨h1, h2⟩
        rcases List.mem_cons.mp h1 with rfl | h1
        · exact absurd hy h2
        · exact ⟨h1, h2⟩
    · rw [dedupKeepFirstGo, if_neg hy]
      simp only [List.mem_cons, ih]
      constructor
      · rintro (rfl | ⟨h1, h2⟩)
        · exact ⟨Or.inl rfl, hy⟩
        · refine ⟨Or.inr h1, fun hc => h2 (Or.inr hc)⟩
      · rintro ⟨rfl | h1, h2⟩
        · exact Or.inl rfl
        · by_cases hxy : x = y
          · exact Or.inl hxy
          · exact Or.inr ⟨h1, fun hc => by
              rcases hc with h | h
              · exact hxy h
              · exact h2 h⟩

theorem mem_dedupKeepFirst (l : List Int) (x : Int) :
    x ∈ dedupKeepFirst l ↔ x ∈ l := by
  rw [dedupKeepFirst, mem_dedupKeepFirstGo]
  simp

theorem nodup_dedupKeepFirstGo (seen l : List Int) :
    (dedupKeepFirstGo seen l).Nodup := by
  induction l generalizing seen with
  | nil => simp [dedupKeepFirstGo]
  | cons y ys ih =>
    by_cases hy : y ∈ seen
    · rw [dedupKeepFirstGo, if_pos hy]
      exact ih seen
    · rw [dedupKeepFirstGo, if_neg hy]
      refine List.Nodup.cons ?_ (ih (y :: seen))
      intro hmem
      have := (mem_dedupKeepFirstGo (y :: seen) ys y).mp hmem
      exact this.2 (List.mem_cons_self y seen)

theorem nodup_dedupKeepFirst (l : List Int) : (dedupKeepFirst l).Nodup :=
  nodup_dedupKeepFirstGo [] l

theorem foldl_max_init (xs : List Int) (x : Int) : x ≤ xs.foldl max x := by
  induction xs generalizing x with
  | nil => exact le_refl x
  | cons y ys ih =>
    calc x ≤ max x y := le_max_left x y
    _ ≤ (y :: ys).tail.foldl max (max x y) := ih (max x y)

theorem foldl_max_mem (xs : List Int) (x v : Int) (h : v ∈ xs) :
    v ≤ xs.foldl max x := by
  induction xs generalizing x with
  | nil => cases h
  | cons y ys ih =>
    rcases List.mem_cons.mp h with rfl | h
    · calc v ≤ max x v := le_max_right x v
      _ ≤ ys.foldl max (max x v) := foldl_max_init ys (max x v)
    · exact ih (max x y) h


theorem le_listMax0 (l : List Int) (v : Int) (h : v ∈ l) : v ≤ listMax0 l := by
  match l with
  | [] => cases h
  | x :: xs =>
    rcases List.mem_cons.mp h with rfl | h
    · exact foldl_max_init xs v
    · exact foldl_max_mem xs x v h

theorem mem_unique_tables (df : List GuestRow) (x : Int) :
    x ∈ unique_tables df ↔ x ∈ table_vals df ∧ x ≠ 0 := by
  rw [unique_tables, List.mem_filter]
  rw [(List.perm_insertionSort (· ≤ ·) (dedupKeepFirst (table_vals df))).mem_iff]
  rw [mem_dedupKeepFirst]
  simp [bne]

theorem nodup_unique_tables (df : List GuestRow) : (unique_tables df).Nodup := by
  apply List.Nodup.filter
  exact ((List.perm_insertionSort (· ≤ ·) _).symm).nodup (nodup_dedupKeepFirst _)

theorem unique_tables_le_max (df : List GuestRow) (x : Int) (h : x ∈ unique_tables df) :
    x ≤ current_max df :=
  le_listMax0 _ _ ((mem_unique_tables df x).mp h).1

theorem new_tables_info_map_snd (next : Int) (ts : List Int) :
    (new_tables_info next ts).map (fun p => p.2) = ts := by
  induction ts generalizing next with
  | nil => rfl
  | cons t ts ih => simp [new_tables_info, ih]

theorem new_tables_info_mem_fst (next : Int) (ts : List Int) (p : Int × Int)
    (h : p ∈ new_tables_info next ts) : next ≤ p.1 ∧ p.1 < next + ts.length := by
  induction ts generalizing next with
  | nil => cases h
  | cons t ts ih =>
    rcases List.mem_cons.mp h with rfl | h
    · simp only [List.length_cons]
      omega
    · have := ih (next + 1) h
      simp only [List.length_cons]
      push_cast at *
      omega

theorem new_tables_info_map_fst (next : Int) (ts : List Int) :
    (new_tables_info next ts).map (fun p => p.1) =
      (List.range ts.length).map (fun i : Nat => next + (i : Int)) := by
  induction ts generalizing next with
  | nil => rfl
  | cons t ts ih =>
    simp only [new_tables_info, List.map_cons, List.length_cons,
      List.range_succ_eq_map, ih, List.map_map]
    congr 1
    · simp
    · apply List.map_congr_left
      intro i _
      simp only [Function.comp_apply]
      push_cast
      ring

theorem new_tables_info_fst_nodup (next : Int) (ts : List Int) :
    ((new_tables_info next ts).map (fun p => p.1)).Nodup := by
  induction ts generalizing next with
  | nil => exact List.nodup_nil
  | cons t ts ih =>
    simp only [new_tables_info, List.map_cons]
    refine List.Nodup.cons ?_ (ih (next + 1))
    intro hmem
    obtain ⟨p, hp, hfst⟩ := List.mem_map.mp hmem
    have := new_tables_info_mem_fst (next + 1) ts p hp
    omega

theorem new_tables_info_unique_pair (next : Int) (ts : List Int) (p q : Int × Int)
    (hp : p ∈ new_tables_info next ts) (hq : q ∈ new_tables_info next ts)
    (h : p.1 = q.1) : p = q := by
  induction ts generalizing next with
  | nil => cases hp
  | cons t ts ih =>
    rcases List.mem_cons.mp hp with rfl | hp <;> rcases List.mem_cons.mp hq with rfl | hq
    · rfl
    · have := new_tables_info_mem_fst (next + 1) ts q hq
      omega
    · have := new_tables_info_mem_fst (next + 1) ts p hp
      omega
    · exact ih (next + 1) hp hq

theorem mem_ids_for (info : List (Int × Int)) (t m : Int) :
    m ∈ ids_for info t ↔ (m, t) ∈ info := by
  simp only [ids_for, List.mem_map, List.mem_filter]
  constructor
  · rintro ⟨p, ⟨hp, hsnd⟩, hfst⟩
    have h2 : p.2 = t := by simpa using hsnd
    have : p = (m, t) := by
      cases p
      simp only [Prod.mk.injEq]
      exact ⟨hfst, h2⟩
    rw [← this]
    exact hp
  · intro h
    exact ⟨(m, t), ⟨h, by simp⟩, rfl⟩

theorem ids_for_target_eq (next : Int) (ts : List Int) (t t' m : Int)
    (h : m ∈ ids_for (new_tables_info next ts) t)
    (h' : m ∈ ids_for (new_tables_info next ts) t') : t = t' := by
  have h1 := (mem_ids_for _ t m).mp h
  have h2 := (mem_ids_for _ t' m).mp h'
  have := new_tables_info_unique_pair next ts (m, t) (m, t') h1 h2 rfl
  simpa using this

theorem ids_for_ge (next : Int) (ts : List Int) (t m : Int)
    (h : m ∈ ids_for (new_tables_info next ts) t) : next ≤ m := by
  have h1 := (mem_ids_for _ t m).mp h
  have := new_tables_info_mem_fst next ts (m, t) h1
  exact this.1

theorem count_ids_for_eq_one (next : Int) (ts : List Int) (t m : Int)
    (h : (m, t) ∈ new_tables_info next ts) :
    (ids_for (new_tables_info next ts) t).count m = 1 := by
  have hmem : m ∈ ids_for (new_tables_info next ts) t := (mem_ids_for _ t m).mpr h
  have hle : (ids_for (new_tables_info next ts) t).count m ≤
      ((new_tables_info next ts).map (fun p => p.1)).count m := by
    apply List.Sublist.count_le
    exact List.Sublist.map _ (List.filter_sublist _)
  have hone : ((new_tables_info next ts).map (fun p => p.1)).count m = 1 := by
    apply List.count_eq_one_of_mem (new_tables_info_fst_nodup next ts)
    exact List.mem_map.mpr ⟨(m, t), h, rfl⟩
  have hpos : 0 < (ids_for (new_tables_info next ts) t).count m :=
    List.count_pos_iff_mem.mpr hmem
  omega

theorem count_flatMap_zero (l : List Int) (f : Int → List Int) (m : Int)
    (h : ∀ x ∈ l, m ∉ f x) : (l.flatMap f).count m = 0 := by
  induction l with
  | nil => rfl
  | cons x xs ih =>
    rw [List.flatMap_cons, List.count_append]
    rw [List.count_eq_zero.mpr (h x (List.mem_cons_self x xs))]
    rw [ih (fun y hy => h y (List.mem_cons_of_mem x hy))]

theorem count_flatMap_nodup (l : List Int) (f : Int → List Int) (m k : Int)
    (hn : l.Nodup) (hk : k ∈ l) (h : ∀ x ∈ l, m ∈ f x → x = k) :
    (l.flatMap f).count m = (f k).count m := by
  induction l with
  | nil => cases hk
  | cons x xs ih =>
    rw [List.flatMap_cons, List.count_append]
    rcases List.mem_cons.mp hk with rfl | hk2
    · have hzero : (xs.flatMap f).count m = 0 := by
        apply count_flatMap_zero
        intro y hy hmy
        have := h y (List.mem_cons_of_mem _ hy) hmy
        subst this
        exact (List.nodup_cons.mp hn).1 hy
      omega
    · have hzero : (f x).count m = 0 := by
        apply List.count_eq_zero.mpr
        intro hmx
        have := h x (List.mem_cons_self x xs) hmx
        subst this
        exact (List.nodup_cons.mp hn).1 hk2
      rw [hzero]
      rw [ih (List.nodup_cons.mp hn).2 hk2
        (fun y hy hmy => h y (List.mem_cons_of_mem x hy) hmy)]
      omega

theorem filter_eq_nil_of_forall (l : List Int) (p : Int → Bool)
    (h : ∀ x ∈ l, p x = false) : l.filter p = [] := by
  induction l with
  | nil => rfl
  | cons x xs ih =>
    rw [List.filter_cons, h x (List.mem_cons_self x xs)]
    simp only [Bool.false_eq_true, if_false]
    exact ih (fun y hy => h y (List.mem_cons_of_mem x hy))

theorem filter_flatMap_self (l : List Int) (g : Int → List Int) (p : Int → Bool)
    (h : ∀ t ∈ l, (g t).filter p = [t]) : (l.flatMap g).filter p = l := by
  induction l with
  | nil => rfl
  | cons x xs ih =>
    rw [List.flatMap_cons, List.filter_append, h x (List.mem_cons_self x xs)]
    rw [ih (fun y hy => h y (List.mem_cons_of_mem x hy))]
    rfl

theorem mem_insertion_keys (info : List (Int × Int)) (k : Int) :
    k ∈ insertion_keys info ↔ k ∈ info.map (fun p => p.2) := by
  rw [insertion_keys, mem_dedupKeepFirst]

theorem contains_eq_false_of_not_mem (l : List Int) (x : Int) (h : x ∉ l) :
    l.contains x = false := by
  rw [Bool.eq_false_iff]
  intro hc
  exact h (List.elem_iff.mp hc)

theorem contains_eq_true_of_mem (l : List Int) (x : Int) (h : x ∈ l) :
    l.contains x = true :=
  List.elem_iff.mpr h

theorem count_build_new_order_one (next : Int) (targets uniq : List Int) (m : Int)
    (hu : uniq.Nodup) (hub : ∀ t ∈ uniq, t < next) (h0 : (0 : Int) ∉ uniq)
    (hm : m ∈ (new_tables_info next targets).map (fun p => p.1)) :
    (build_new_order (new_tables_info next targets) uniq
      ((new_tables_info next targets).map (fun p => p.1))).count m = 1 := by
  obtain ⟨p, hp, hpf⟩ := List.mem_map.mp hm
  obtain ⟨m0, k⟩ := p
  simp only at hpf
  have hpf2 : m = m0 := hpf.symm
  subst hpf2
  have hpk : (m, k) ∈ new_tables_info next targets := hp
  have hnextm : next ≤ m := (new_tables_info_mem_fst next targets (m, k) hpk).1
  have hmk_eq : ∀ x, m ∈ ids_for (new_tables_info next targets) x → x = k := by
    intro x hx
    have h1 := (mem_ids_for _ x m).mp hx
    have := new_tables_info_unique_pair next targets (m, x) (m, k) h1 hpk rfl
    simpa using this
  by_cases hemp : uniq.isEmpty
  · rw [build_new_order, if_pos hemp]
    exact List.count_eq_one_of_mem (new_tables_info_fst_nodup next targets) hm
  · rw [build_new_order, if_neg hemp]
    rw [List.count_append, List.count_append]
    have hkeys : k ∈ insertion_keys (new_tables_info next targets) := by
      rw [mem_insertion_keys]
      exact List.mem_map.mpr ⟨(m, k), hpk, rfl⟩
    have hkeys_nodup : (insertion_keys (new_tables_info next targets)).Nodup :=
      nodup_dedupKeepFirst _
    have hA : (ids_for (new_tables_info next targets) 0).count m =
        if k = 0 then 1 else 0 := by
      by_cases hk0 : k = 0
      · rw [if_pos hk0, ← hk0]
        exact count_ids_for_eq_one next targets k m hpk
      · rw [if_neg hk0]
        apply List.count_eq_zero.mpr
        intro hmem
        exact hk0 ((hmk_eq 0 hmem).symm)
    have hB : (uniq.flatMap
        (fun t => t :: ids_for (new_tables_info next targets) t)).count m =
        if k ∈ uniq then 1 else 0 := by
      by_cases hku : k ∈ uniq
      · rw [if_pos hku]
        rw [count_flatMap_nodup uniq _ m k hu hku ?side]
        case side =>
          intro x hx hmx
          rcases List.mem_cons.mp hmx with rfl | hmx2
          · have := hub m hx
            omega
          · exact hmk_eq x hmx2
        rw [List.count_cons]
        have hkm : ¬ (m = k) := by
          have := hub k hku
          omega
        rw [count_ids_for_eq_one next targets k m hpk]
        have hkm2 : ¬ (k = m) := fun hx => hkm hx.symm
        simp [hkm, hkm2]
      · rw [if_neg hku]
        apply count_flatMap_zero
        intro x hx hmx
        rcases List.mem_cons.mp hmx with rfl | hmx2
        · have := hub m hx
          omega
        · exact hku ((hmk_eq x hmx2) ▸ hx)
    have hC : (((insertion_keys (new_tables_info next targets)).filter
          (fun k => !(uniq.contains k ||
            ((insertion_keys (new_tables_info next targets)).contains 0 &&
              k == 0)))).flatMap
        (ids_for (new_tables_info next targets))).count m =
        if k = 0 ∨ k ∈ uniq then 0 else 1 := by
      by_cases hcase : k = 0 ∨ k ∈ uniq
      · rw [if_pos hcase]
        apply count_flatMap_zero
        intro x hx hmx
        have hxk := hmk_eq x hmx
        subst hxk
        have hfilt := (List.mem_filter.mp hx).2
        rcases hcase with rfl | hku
        · rw [contains_eq_true_of_mem _ _ hkeys] at hfilt
          simp at hfilt
        · rw [contains_eq_true_of_mem _ _ hku] at hfilt
          simp at hfilt
      · push_neg at hcase
        obtain ⟨hk0, hku⟩ := hcase
        rw [if_neg (by tauto)]
        have hkf : k ∈ (insertion_keys (new_tables_info next targets)).filter
            (fun k => !(uniq.contains k ||
              ((insertion_keys (new_tables_info next targets)).contains 0 &&
                k == 0))) := by
          rw [List.mem_filter]
          refine ⟨hkeys, ?_⟩
          rw [contains_eq_false_of_not_mem _ _ hku]
          have : (k == (0 : Int)) = false := by
            simp [hk0]
          rw [this]
          simp
        rw [count_flatMap_nodup _ _ m k (List.Nodup.filter _ hkeys_nodup) hkf
          (fun x _ hmx => hmk_eq x hmx)]
        exact count_ids_for_eq_one next targets k m hpk
    rw [hA, hB, hC]
    by_cases hk0 : k = 0
    · simp [hk0, h0]
    · by_cases hku : k ∈ uniq
      · simp [hk0, hku]
      · simp [hk0, hku]

theorem ids_for_not_in_uniq (next : Int) (targets uniq : List Int)
    (hub : ∀ t ∈ uniq, t < next) (x m : Int)
    (h : m ∈ ids_for (new_tables_info next targets) x) :
    uniq.contains m = false := by
  apply contains_eq_false_of_not_mem
  intro hmem
  have h1 := ids_for_ge next targets x m h
  have h2 := hub m hmem
  omega

theorem filter_build_new_order (next : Int) (targets uniq : List Int)
    (hub : ∀ t ∈ uniq, t < next) :
    (build_new_order (new_tables_info next targets) uniq
        ((new_tables_info next targets).map (fun p => p.1))).filter
      (fun x => uniq.contains x) = uniq := by
  by_cases hemp : uniq.isEmpty
  · rw [build_new_order, if_pos hemp]
    have huniq : uniq = [] := List.isEmpty_iff.mp hemp
    subst huniq
    apply filter_eq_nil_of_forall
    intro x _
    exact contains_eq_false_of_not_mem [] x (List.not_mem_nil x)
  · rw [build_new_order, if_neg hemp]
    rw [List.filter_append, List.filter_append]
    have hA : (ids_for (new_tables_info next targets) 0).filter
        (fun x => uniq.contains x) = [] := by
      apply filter_eq_nil_of_forall
      intro x hx
      exact ids_for_not_in_uniq next targets uniq hub 0 x hx
    have hB : (uniq.flatMap
        (fun t => t :: ids_for (new_tables_info next targets) t)).filter
        (fun x => uniq.contains x) = uniq := by
      apply filter_flatMap_self
      intro t ht
      rw [List.filter_cons]
      rw [contains_eq_true_of_mem uniq t ht]
      simp only [if_true]
      rw [filter_eq_nil_of_forall _ _
        (fun x hx => ids_for_not_in_uniq next targets uniq hub t x hx)]
    have hC : (((insertion_keys (new_tables_info next targets)).filter
          (fun k => !(uniq.contains k ||
            ((insertion_keys (new_tables_info next targets)).contains 0 &&
              k == 0)))).flatMap
        (ids_for (new_tables_info next targets))).filter
        (fun x => uniq.contains x) = [] := by
      apply filter_eq_nil_of_forall
      intro x hx
      obtain ⟨kk, hkk, hxk⟩ := List.mem_flatMap.mp hx
      exact ids_for_not_in_uniq next targets uniq hub kk x hxk
    rw [hA, hB, hC]
    simp

theorem sim_gen_eq (df : List GuestRow) (targets : List Int) :
    (simulate_table_addition df targets).generated_new_ids =
      (new_tables_info (current_max df + 1) targets).map (fun p => p.1) := rfl

theorem sim_order_eq (df : List GuestRow) (targets : List Int) :
    (simulate_table_addition df targets).new_order =
      build_new_order (new_tables_info (current_max df + 1) targets)
        (unique_tables df)
        ((new_tables_info (current_max df + 1) targets).map (fun p => p.1)) := rfl

/-- C5: the simulator mints one id per anchor in input order, sequentially
from `current_max + 1`; the minted ids are mutually distinct and strictly
above the pre-insertion maximum; each minted id occurs in the output
ordering exactly once; the pre-existing nonzero identifiers appear in the
ordering exactly as the sorted distinct existing tables (none dropped or
reordered); and on tables `{3,5,9}` with anchors `[5,5,20]` the minted ids
are `[10,11,12]` and the ordering is `[3,5,10,11,9,12]`. -/
theorem simulate_table_addition_correct (df : List GuestRow) (targets : List Int) :
    ((simulate_table_addition df targets).generated_new_ids =
      (List.range targets.length).map (fun i : Nat => current_max df + 1 + (i : Int))) ∧
    (simulate_table_addition df targets).generated_new_ids.Nodup ∧
    (∀ m ∈ (simulate_table_addition df targets).generated_new_ids,
      current_max df < m) ∧
    (∀ m ∈ (simulate_table_addition df targets).generated_new_ids,
      ((simulate_table_addition df targets).new_order).count m = 1) ∧
    ((simulate_table_addition df targets).new_order.filter
        (fun x => (unique_tables df).contains x) = unique_tables df) ∧
    (∀ v ∈ table_vals df, v ≠ 0 →
      v ∈ (simulate_table_addition df targets).new_order) ∧
    ((simulate_table_addition
        [⟨3, 1, "a", "", none, ""⟩, ⟨5, 1, "b", "", none, ""⟩,
          ⟨9, 1, "c", "", none, ""⟩] [5, 5, 20]).generated_new_ids = [10, 11, 12] ∧
      (simulate_table_addition
        [⟨3, 1, "a", "", none, ""⟩, ⟨5, 1, "b", "", none, ""⟩,
          ⟨9, 1, "c", "", none, ""⟩] [5, 5, 20]).new_order = [3, 5, 10, 11, 9, 12]) := by
  have hub : ∀ t ∈ unique_tables df, t < current_max df + 1 := by
    intro t ht
    have := unique_tables_le_max df t ht
    omega
  refine ⟨?_, ?_, ?_, ?_, ?_, ?_, by decide⟩
  · rw [sim_gen_eq]
    exact new_tables_info_map_fst (current_max df + 1) targets
  · rw [sim_gen_eq]
    exact new_tables_info_fst_nodup (current_max df + 1) targets
  · intro m hm
    rw [sim_gen_eq] at hm
    obtain ⟨p, hp, hpf⟩ := List.mem_map.mp hm
    have := new_tables_info_mem_fst (current_max df + 1) targets p hp
    omega
  · intro m hm
    rw [sim_gen_eq] at hm
    rw [sim_order_eq]
    exact count_build_new_order_one (current_max df + 1) targets (unique_tables df) m
      (nodup_unique_tables df) hub
      (fun hc => ((mem_unique_tables df 0).mp hc).2 rfl) hm
  · rw [sim_order_eq]
    exact filter_build_new_order (current_max df + 1) targets (unique_tables df) hub
  · intro v hv hv0
    have hvu : v ∈ unique_tables df := (mem_unique_tables df v).mpr ⟨hv, hv0⟩
    have hfil := filter_build_new_order (current_max df + 1) targets (unique_tables df) hub
    rw [← sim_order_eq] at hfil
    rw [← hfil] at hvu
    exact (List.mem_filter.mp hvu).1

/-- Whether `x` is a minted id whose anchor matched no existing table and
was not the front-insertion anchor `0` (looked up through the minted
pairs). -/
def isUnmatchedMinted (info : List (Int × Int)) (uniq : List Int) (x : Int) : Bool :=
  match info.find? (fun p => p.1 == x) with
  | some p => !(uniq.contains p.2) && p.2 != 0
  | none => false

/-- The minted ids of the anchors that matched no existing table, grouped
by distinct anchor in first-occurrence order, each group in input order —
the tail the simulator actually appends. -/
def unmatchedMintedGrouped (next : Int) (targets uniq : List Int) : List Int :=
  ((dedupKeepFirst targets).filter
      (fun k => !(uniq.contains k) && k != 0)).flatMap
    (ids_for (new_tables_info next targets))

theorem find_fst_eq (next : Int) (ts : List Int) (m k : Int)
    (h : (m, k) ∈ new_tables_info next ts) :
    (new_tables_info next ts).find? (fun p => p.1 == m) = some (m, k) := by
  induction ts generalizing next with
  | nil => cases h
  | cons t ts ih =>
    rcases List.mem_cons.mp h with heq | hmem
    · cases heq
      rw [new_tables_info]
      apply List.find?_cons_of_pos
      simp
    · have hb := new_tables_info_mem_fst (next + 1) ts (m, k) hmem
      rw [new_tables_info]
      rw [List.find?_cons_of_neg]
      · exact ih (next + 1) hmem
      · simp only [beq_iff_eq]
        omega

theorem find_fst_none (next : Int) (ts : List Int) (m : Int)
    (h : ∀ p ∈ new_tables_info next ts, p.1 ≠ m) :
    (new_tables_info next ts).find? (fun p => p.1 == m) = none := by
  apply List.find?_eq_none.mpr
  intro p hp
  simp only [beq_iff_eq]
  exact fun hc => h p hp (by simpa using hc)

theorem isUnmatchedMinted_of_pair (next : Int) (ts uniq : List Int) (m k : Int)
    (h : (m, k) ∈ new_tables_info next ts) :
    isUnmatchedMinted (new_tables_info next ts) uniq m =
      (!(uniq.contains k) && k != 0) := by
  rw [isUnmatchedMinted, find_fst_eq next ts m k h]

theorem isUnmatchedMinted_of_old (next : Int) (ts uniq : List Int) (x : Int)
    (hx : x < next) :
    isUnmatchedMinted (new_tables_info next ts) uniq x = false := by
  rw [isUnmatchedMinted, find_fst_none next ts x]
  intro p hp
  have := new_tables_info_mem_fst next ts p hp
  omega

theorem build_new_order_decomp (next : Int) (targets uniq gen : List Int)
    (hub : ∀ t ∈ uniq, t < next) (hemp : ¬ uniq.isEmpty = true) :
    build_new_order (new_tables_info next targets) uniq gen =
      (build_new_order (new_tables_info next targets) uniq gen).filter
        (fun x => !(isUnmatchedMinted (new_tables_info next targets) uniq x)) ++
      unmatchedMintedGrouped next targets uniq := by
  rw [build_new_order, if_neg hemp]
  have hPA : ∀ x ∈ ids_for (new_tables_info next targets) 0,
      (!(isUnmatchedMinted (new_tables_info next targets) uniq x)) = true := by
    intro x hx
    have hp := (mem_ids_for _ 0 x).mp hx
    rw [isUnmatchedMinted_of_pair next targets uniq x 0 hp]
    simp
  have hPB : ∀ x ∈ uniq.flatMap
      (fun t => t :: ids_for (new_tables_info next targets) t),
      (!(isUnmatchedMinted (new_tables_info next targets) uniq x)) = true := by
    intro x hx
    obtain ⟨t, ht, hxt⟩ := List.mem_flatMap.mp hx
    rcases List.mem_cons.mp hxt with rfl | hx2
    · rw [isUnmatchedMinted_of_old next targets uniq x (hub x ht)]
      simp
    · have hp := (mem_ids_for _ t x).mp hx2
      rw [isUnmatchedMinted_of_pair next targets uniq x t hp]
      rw [contains_eq_true_of_mem uniq t ht]
      simp
  have hPC : ∀ x ∈ ((insertion_keys (new_tables_info next targets)).filter
        (fun k => !(uniq.contains k ||
          ((insertion_keys (new_tables_info next targets)).contains 0 &&
            k == 0)))).flatMap (ids_for (new_tables_info next targets)),
      isUnmatchedMinted (new_tables_info next targets) uniq x = true := by
    intro x hx
    obtain ⟨kk, hkk, hxk⟩ := List.mem_flatMap.mp hx
    have hp := (mem_ids_for _ kk x).mp hxk
    have hfil := List.mem_filter.mp hkk
    have hkk1 := hfil.1
    have hkk2 := hfil.2
    have hknu : kk ∉ uniq := by
      intro hmem
      rw [contains_eq_true_of_mem uniq kk hmem] at hkk2
      simp at hkk2
    have hk0 : kk ≠ 0 := by
      intro h0
      subst h0
      rw [contains_eq_true_of_mem _ _ hkk1] at hkk2
      simp at hkk2
    rw [isUnmatchedMinted_of_pair next targets uniq x kk hp]
    rw [contains_eq_false_of_not_mem uniq kk hknu]
    simp [hk0]
  have hCeq : ((insertion_keys (new_tables_info next targets)).filter
        (fun k => !(uniq.contains k ||
          ((insertion_keys (new_tables_info next targets)).contains 0 &&
            k == 0)))).flatMap (ids_for (new_tables_info next targets)) =
      unmatchedMintedGrouped next targets uniq := by
    rw [unmatchedMintedGrouped]
    have hkeys_eq : insertion_keys (new_tables_info next targets) =
        dedupKeepFirst targets := by
      rw [insertion_keys, new_tables_info_map_snd]
    rw [hkeys_eq]
    congr 1
    apply List.filter_congr'
    intro k hk
    by_cases hk0 : k = 0
    · subst hk0
      rw [contains_eq_true_of_mem _ _ hk]
      simp
    · have : (k == (0 : Int)) = false := by simp [hk0]
      rw [this]
      simp [hk0]
  rw [List.filter_append, List.filter_append]
  rw [List.filter_eq_self.mpr hPA, List.filter_eq_self.mpr hPB]
  have hCnil : (((insertion_keys (new_tables_info next targets)).filter
        (fun k => !(uniq.contains k ||
          ((insertion_keys (new_tables_info next targets)).contains 0 &&
            k == 0)))).flatMap (ids_for (new_tables_info next targets))).filter
      (fun x => !(isUnmatchedMinted (new_tables_info next targets) uniq x)) = [] := by
    apply filter_eq_nil_of_forall
    intro x hx
    rw [hPC x hx]
    rfl
  rw [hCnil, hCeq]
  simp [List.append_assoc]

/-- C6 counterexample: with one existing table `1` (max `1`) and anchors
`[20, 30, 20]` — all unmatched — the minted ids in anchor-list order are
`[2, 3, 4]`, but the simulator appends `[2, 4, 3]` (grouped by distinct
anchor), so the output ordering is `[1, 2, 4, 3]`, not `[1, 2, 3, 4]` as
the claim's anchor-list order demands. -/
theorem simulate_unmatched_anchors_counterexample :
    (simulate_table_addition [⟨1, 1, "a", "", none, ""⟩]
      [20, 30, 20]).generated_new_ids = [2, 3, 4] ∧
    (simulate_table_addition [⟨1, 1, "a", "", none, ""⟩]
      [20, 30, 20]).new_order = [1, 2, 4, 3] ∧
    (simulate_table_addition [⟨1, 1, "a", "", none, ""⟩]
      [20, 30, 20]).new_order ≠ [1, 2, 3, 4] := by
  decide

/-- C6 amended: no minted identifier is omitted from the output ordering,
even when its anchor matches no existing table. When the collection has no
nonzero table the ordering is exactly the minted ids in input order; when
it has some, the ordering is its non-unmatched part followed, at the very
end, by the minted ids of the unmatched nonzero anchors grouped by
distinct anchor in first-occurrence order (ids of one anchor in input
order) — not interleaved in raw anchor-list order. -/
theorem simulate_unmatched_anchors (df : List GuestRow) (targets : List Int) :
    (∀ m ∈ (simulate_table_addition df targets).generated_new_ids,
      m ∈ (simulate_table_addition df targets).new_order) ∧
    (unique_tables df = [] →
      (simulate_table_addition df targets).new_order =
        (simulate_table_addition df targets).generated_new_ids) ∧
    (unique_tables df ≠ [] →
      (simulate_table_addition df targets).new_order =
        (simulate_table_addition df targets).new_order.filter
          (fun x => !(isUnmatchedMinted
            (new_tables_info (current_max df + 1) targets) (unique_tables df) x)) ++
          unmatchedMintedGrouped (current_max df + 1) targets (unique_tables df)) := by
  have hub : ∀ t ∈ unique_tables df, t < current_max df + 1 := by
    intro t ht
    have := unique_tables_le_max df t ht
    omega
  refine ⟨?_, ?_, ?_⟩
  · intro m hm
    rw [sim_gen_eq] at hm
    rw [sim_order_eq]
    have h1 := count_build_new_order_one (current_max df + 1) targets
      (unique_tables df) m (nodup_unique_tables df) hub
      (fun hc => ((mem_unique_tables df 0).mp hc).2 rfl) hm
    exact List.count_pos_iff_mem.mp (by omega)
  · intro h
    rw [sim_order_eq, sim_gen_eq, build_new_order,
      if_pos (List.isEmpty_iff.mpr h)]
  · intro hne
    rw [sim_order_eq]
    exact build_new_order_decomp (current_max df + 1) targets (unique_tables df) _
      hub (fun hc => hne (List.isEmpty_iff.mp hc))

/-! ### Properties of the table summary -/

theorem summarizeTable_fields (df : List GuestRow) (t : Int) :
    (summarizeTable df t).total_guests =
      (df.filter (fun g => g.table_number == t)).length ∧
    (summarizeTable df t).reserved =
      ((df.filter (fun g => g.table_number == t)).filter
        (fun g => is_reserved_row g)).length ∧
    (summarizeTable df t).adjusted_total =
      (((df.filter (fun g => g.table_number == t)).length : Int) -
        (((df.filter (fun g => g.table_number == t)).filter
          (fun g => is_reserved_row g)).length : Int)) :=
  ⟨rfl, rfl, rfl⟩

/-- C7 counterexample: a row whose group name contains `vacant` (and
nothing else) is reserved according to the claim's criterion but is not
counted as reserved by the source — the source checks `vacant` only in
the name column. -/
theorem reserved_criterion_counterexample :
    is_reserved_row_specClaim ⟨1, 1, "x", "", none, "Vacant Cluster"⟩ = true ∧
    is_reserved_row ⟨1, 1, "x", "", none, "Vacant Cluster"⟩ = false ∧
    (summarizeTable [⟨1, 1, "x", "", none, "Vacant Cluster"⟩] 1).reserved = 0 ∧
    (summarizeTable [⟨1, 1, "x", "", none, "Vacant Cluster"⟩] 1).total_guests = 1 := by
  decide

/-- C7 amended: a row of the table counts toward the reserved subcount
exactly when its lower-cased name contains `simpanan`, `reserve` or
`vacant`, its lower-cased group name contains `simpanan` or `reserve`, or
its lower-cased menu contains `reserve` (the menu is not tested for
`simpanan` and the group name is not tested for `vacant`); on the table
`[{name: Simpanan A}, {name: Ali, menu: Ayam}]` this yields reserved 1,
ayam 1, total 2, adjusted total 1. -/
theorem reserved_criterion_correct (df : List GuestRow) (t : Int) :
    ((summarizeTable df t).reserved =
      ((df.filter (fun g => g.table_number == t)).filter
        (fun g => str_contains_lower g.name "simpanan" ||
          str_contains_lower g.name "reserve" ||
          str_contains_lower g.name "vacant" ||
          str_contains_lower g.gp_name "simpanan" ||
          str_contains_lower g.gp_name "reserve" ||
          str_contains_lower g.menu "reserve")).length) ∧
    ((summarizeTable [⟨3, 1, "Simpanan A", "", none, ""⟩,
        ⟨3, 2, "Ali", "Ayam", none, ""⟩] 3).reserved = 1 ∧
      (summarizeTable [⟨3, 1, "Simpanan A", "", none, ""⟩,
        ⟨3, 2, "Ali", "Ayam", none, ""⟩] 3).ayam = 1 ∧
      (summarizeTable [⟨3, 1, "Simpanan A", "", none, ""⟩,
        ⟨3, 2, "Ali", "Ayam", none, ""⟩] 3).total_guests = 2 ∧
      (summarizeTable [⟨3, 1, "Simpanan A", "", none, ""⟩,
        ⟨3, 2, "Ali", "Ayam", none, ""⟩] 3).adjusted_total = 1) := by
  exact ⟨rfl, by decide⟩

/-- C10: in every per-table summary row the reserved subcount never
exceeds the table's total occupant count (it counts a subset of the
table's rows), so the adjusted total is non-negative, and the final
totals row's adjusted total is non-negative as well. -/
theorem summary_adjusted_nonneg (df : List GuestRow) (table_order : Option (List Int)) :
    (∀ row ∈ (generate_table_summary df table_order).1,
      row.reserved ≤ row.total_guests ∧ 0 ≤ row.adjusted_total) ∧
    0 ≤ (generate_table_summary df table_order).2.adjusted_total := by
  have hrows : (generate_table_summary df table_order).1 =
      (summary_tables df table_order).map (summarizeTable df) := rfl
  have hrow : ∀ row ∈ (generate_table_summary df table_order).1,
      row.reserved ≤ row.total_guests ∧ 0 ≤ row.adjusted_total := by
    intro row hmem
    rw [hrows] at hmem
    obtain ⟨t, ht, rfl⟩ := List.mem_map.mp hmem
    obtain ⟨h1, h2, h3⟩ := summarizeTable_fields df t
    have hle : ((df.filter (fun g => g.table_number == t)).filter
        (fun g => is_reserved_row g)).length ≤
        (df.filter (fun g => g.table_number == t)).length :=
      List.length_filter_le _ _
    constructor
    · rw [h1, h2]
      exact hle
    · rw [h3]
      omega
  refine ⟨hrow, ?_⟩
  have htot : (generate_table_summary df table_order).2.adjusted_total =
      ((generate_table_summary df table_order).1.map
        (fun x => x.adjusted_total)).sum := rfl
  rw [htot]
  apply List.sum_nonneg
  intro x hx
  obtain ⟨row, hrm, rfl⟩ := List.mem_map.mp hx
  exact (hrow row hrm).2
